import Mathlib

/-!
Shallow embedding of the watchr trade-orchestration core.

Conventions of the embedding:
* JavaScript numbers are modelled as `ℚ` (amounts, prices, fractions) or `ℕ`
  (millisecond timestamps, lamports / raw token base units, slippage bps).
* `undefined` / `null` optional values are `Option _`.  JavaScript truthiness
  on optional numbers (`!x` is true for `undefined`, `null`, `0`, `NaN`) is
  `jsFalsyQ`; on optional strings (falsy for `undefined`, `null`, `""`) it is
  `jsFalsyStr`.
* The persisted signal collection (`signals.json`) is a `List Signal`; each
  store operation is a pure function from the loaded list (plus a `now`
  timestamp standing for `Date.now()`) to the saved list and its return value.
* Network I/O (Jupiter quotes and swaps, balance lookups, Birdeye prices) is
  modelled by explicit oracle functions passed as parameters.
-/

namespace Watchr

/-- The `status` field of a Signal: the string union "open" | "closed"
(`opened` is used for "open" because `open` is a Lean keyword). -/
inductive Status
  | opened
  | closed
deriving DecidableEq, Repr

/-- JS truthiness test on an optional number: `!x`. -/
def jsFalsyQ : Option ℚ → Bool
  | none => true
  | some q => q == 0

/-- JS truthiness test on an optional string: `!s`. -/
def jsFalsyStr : Option String → Bool
  | none => true
  | some s => s == ""

/-- The optional `trader` sub-record of a Signal (src/signals.ts). -/
structure TraderInfo where
  buySigs : Option (List String)
  sellSigs : Option (List String)
  solSpent : Option ℚ
deriving DecidableEq, Repr

/-- The `Signal` interface of src/signals.ts. -/
structure Signal where
  ts : ℕ
  wallet : String
  mint : String
  amount : ℚ
  entryPriceUsd : Option ℚ
  symbol : Option String
  status : Status
  stopLossPct : ℚ
  source : Option String
  updatedTs : Option ℕ
  occurrences : Option ℕ
  closedTs : Option ℕ
  closeReason : Option String
  trader : Option TraderInfo
  exitPriceUsd : Option ℚ
  exitPnlPct : Option ℚ
deriving DecidableEq, Repr

instance : Inhabited Signal :=
  ⟨{ ts := 0, wallet := "", mint := "", amount := 0, entryPriceUsd := none,
     symbol := none, status := .opened, stopLossPct := 0, source := none,
     updatedTs := none, occurrences := none, closedTs := none,
     closeReason := none, trader := none, exitPriceUsd := none,
     exitPnlPct := none }⟩

/-- `MERGE_WINDOW_MS = 60 * 1000` from src/signals.ts. -/
def MERGE_WINDOW_MS : ℕ := 60 * 1000

/-- The VWAP helper `mergeVWAP` of src/signals.ts, including the JS
truthiness tests on the two optional prices (a price of `0` is falsy). -/
def mergeVWAP (prevAmount : ℚ) (prevPrice : Option ℚ) (addAmount : ℚ)
    (addPrice : Option ℚ) : Option ℚ :=
  if jsFalsyQ prevPrice && jsFalsyQ addPrice then none
  else if jsFalsyQ prevPrice then addPrice
  else if jsFalsyQ addPrice then prevPrice
  else
    let total := prevAmount + addAmount
    if total ≤ 0 then prevPrice
    else some ((prevPrice.getD 0 * prevAmount + addPrice.getD 0 * addAmount) / total)

/-- Parameter record of `upsertBuy` (src/signals.ts); `priceUsd ?? undefined`
is already folded into the `Option ℚ`. -/
structure BuyParams where
  wallet : String
  mint : String
  amount : ℚ
  stopLossPct : ℚ
  source : Option String
  priceUsd : Option ℚ
  symbol : Option String
deriving DecidableEq, Repr

/-- `const last = s.updatedTs ?? s.ts` in `upsertBuy`. -/
def lastTs (s : Signal) : ℕ := s.updatedTs.getD s.ts

/-- The `findIndex` predicate of `upsertBuy` / `closeByWalletAndMint`:
`s.status === "open" && s.wallet === wallet && s.mint === mint`. -/
def isOpenMatch (w m : String) (s : Signal) : Bool :=
  decide (s.status = .opened ∧ s.wallet = w ∧ s.mint = m)

/-- The in-place merge branch of `upsertBuy`: VWAP on the old amount, then
`amount += ...`, `updatedTs = now`, `occurrences = (occurrences ?? 1) + 1`,
and the conditional `symbol` / `source` backfills. -/
def mergeInto (s : Signal) (p : BuyParams) (now : ℕ) : Signal :=
  { s with
    entryPriceUsd := mergeVWAP s.amount s.entryPriceUsd p.amount p.priceUsd
    amount := s.amount + p.amount
    updatedTs := some now
    occurrences := some (s.occurrences.getD 1 + 1)
    symbol := if !jsFalsyStr p.symbol && jsFalsyStr s.symbol then p.symbol else s.symbol
    source := if !jsFalsyStr p.source && jsFalsyStr s.source then p.source else s.source }

/-- The fresh Signal pushed by `upsertBuy` when it does not merge. -/
def newSignal (p : BuyParams) (now : ℕ) : Signal :=
  { ts := now
    wallet := p.wallet
    mint := p.mint
    amount := p.amount
    entryPriceUsd := p.priceUsd
    symbol := p.symbol
    status := .opened
    stopLossPct := p.stopLossPct
    source := p.source
    updatedTs := some now
    occurrences := some 1
    closedTs := none
    closeReason := none
    trader := none
    exitPriceUsd := none
    exitPnlPct := none }

/-- Walks the list exactly like `findIndex` in `upsertBuy`: at the first open
(wallet, mint) match, merge in place when `now - last <= MERGE_WINDOW_MS`
(ℕ-subtraction agrees with the JS comparison since a negative difference also
passes the test); a stale first match means no merge (`none`).  Non-matching
prefix elements are kept in place. -/
def upsertAux (p : BuyParams) (now : ℕ) : List Signal → Option (List Signal × Signal)
  | [] => none
  | s :: rest =>
    if isOpenMatch p.wallet p.mint s then
      if now - lastTs s ≤ MERGE_WINDOW_MS then
        let s' := mergeInto s p now
        some (s' :: rest, s')
      else none
    else
      match upsertAux p now rest with
      | some (l, sg) => some (s :: l, sg)
      | none => none

/-- `upsertBuy` of src/signals.ts: merge into the first open (wallet, mint)
signal when its last update is within the merge window, otherwise push a new
open Signal.  Returns the saved list and the resulting Signal. -/
def upsertBuy (store : List Signal) (p : BuyParams) (now : ℕ) : List Signal × Signal :=
  match upsertAux p now store with
  | some r => r
  | none => (store ++ [newSignal p now], newSignal p now)

/-- `hasOpenSignalForMint` of src/signals.ts: any open signal for the mint,
across all wallets. -/
def hasOpenSignalForMint (store : List Signal) (m : String) : Bool :=
  store.any (fun s => decide (s.status = .opened ∧ s.mint = m))

/-- Number of open Signals in the store for a (wallet, mint) pair. -/
def openCountFor (store : List Signal) (w m : String) : ℕ :=
  (store.filter (isOpenMatch w m)).length

/-- Per-element effect of `closeByWalletAndMint` (src/signals.ts). -/
def closeIfOpenMatch (w m : String) (reason : String) (now : ℕ) (s : Signal) : Signal :=
  if isOpenMatch w m s then
    { s with status := .closed, closedTs := some now, closeReason := some reason }
  else s

/-- `closeByWalletAndMint` of src/signals.ts (default reason
"sold_by_wallet" is supplied by the caller here): closes every open
(wallet, mint) signal and returns the saved list with the closed count. -/
def closeByWalletAndMint (store : List Signal) (w m : String) (reason : String)
    (now : ℕ) : List Signal × ℕ :=
  (store.map (closeIfOpenMatch w m reason now),
   (store.filter (isOpenMatch w m)).length)

/-- Per-element effect of `closeByWalletMintWithExit` (src/signals.ts):
additionally stamps `exitPriceUsd`, and `exitPnlPct` only when
`typeof s.entryPriceUsd === "number" && s.entryPriceUsd > 0`. -/
def closeSignalIfMatch (w m : String) (price : ℚ) (reason : String) (now : ℕ)
    (s : Signal) : Signal :=
  if isOpenMatch w m s then
    { s with status := .closed, closedTs := some now, closeReason := some reason,
             exitPriceUsd := some price,
             exitPnlPct :=
               match s.entryPriceUsd with
               | some e => if 0 < e then some ((price - e) / e) else s.exitPnlPct
               | none => s.exitPnlPct }
  else s

/-- `closeByWalletMintWithExit` of src/signals.ts. -/
def closeByWalletMintWithExit (store : List Signal) (w m : String) (price : ℚ)
    (reason : String) (now : ℕ) : List Signal × ℕ :=
  (store.map (closeSignalIfMatch w m price reason now),
   (store.filter (isOpenMatch w m)).length)

/-- Per-element effect of `updateOpenSignalsStopLoss` (src/signals.ts). -/
def setStopLossIfOpen (newPct : ℚ) (s : Signal) : Signal :=
  if s.status = .opened ∧ s.stopLossPct ≠ newPct then
    { s with stopLossPct := newPct }
  else s

/-- `updateOpenSignalsStopLoss` of src/signals.ts: new stop-loss for every
open signal whose stop-loss differs; returns saved list and changed count. -/
def updateOpenSignalsStopLoss (store : List Signal) (newPct : ℚ) : List Signal × ℕ :=
  (store.map (setStopLossIfOpen newPct),
   (store.filter (fun s => decide (s.status = .opened ∧ s.stopLossPct ≠ newPct))).length)

/-- The trader-record update of `attachTraderSell`:
`trader = trader || {}` then `sellSigs = [...(sellSigs || []), jupSig]`. -/
def addSellSig (jupSig : String) (x : Signal) : Signal :=
  let t := x.trader.getD ⟨none, none, none⟩
  { x with trader := some { t with sellSigs := some (t.sellSigs.getD [] ++ [jupSig]) } }

/-- `attachTraderSell` of src/signals.ts: find the first signal with the same
`ts`, `wallet` and `mint` (status is not compared) and append the swap
signature to its `trader.sellSigs`. -/
def attachTraderSell (store : List Signal) (sig : Signal) (jupSig : String) : List Signal :=
  match store with
  | [] => []
  | x :: xs =>
    if x.ts = sig.ts ∧ x.wallet = sig.wallet ∧ x.mint = sig.mint then
      addSellSig jupSig x :: xs
    else
      x :: attachTraderSell xs sig jupSig

/-! ### Price Monitor (src/pricecheck.ts) -/

/-- The snapshot filter of a price-check cycle:
`s.status === "open" && typeof s.entryPriceUsd === "number" && s.entryPriceUsd > 0`. -/
def openWithEntry (s : Signal) : Bool :=
  s.status == .opened &&
    (match s.entryPriceUsd with
     | some e => decide (0 < e)
     | none => false)

/-- The store update a single snapshot entry `e` causes in one price-check
cycle of `startPriceChecker` (src/pricecheck.ts): skip when the fetched price
is missing or non-positive; otherwise close by (wallet, mint) with reason
"stop_loss" when `pnlPct <= stopLossPct`, else with "take_profit" when the
global take-profit is enabled and `pnlPct >= takeProfitPct`.  The best-effort
auto-sell does not touch the signal store and is omitted here. -/
def cycleFn (tp : Option ℚ) (priceOf : String → Option ℚ) (now : ℕ) (e : Signal) :
    Signal → Signal :=
  match priceOf e.mint with
  | none => id
  | some current =>
    if current ≤ 0 then id
    else
      let entry := e.entryPriceUsd.getD 0
      let pnl := (current - entry) / entry
      if pnl ≤ e.stopLossPct then
        closeSignalIfMatch e.wallet e.mint current "stop_loss" now
      else
        match tp with
        | some t =>
          if t ≤ pnl then closeSignalIfMatch e.wallet e.mint current "take_profit" now
          else id
        | none => id

/-- One full price-check cycle: the open-signal snapshot is taken up front,
then each snapshot entry's evaluation reads and rewrites the persisted store
(`closeByWalletMintWithExit` reloads the file on every call, which the fold
models by threading the store). -/
def priceCheckCycle (store : List Signal) (tp : Option ℚ)
    (priceOf : String → Option ℚ) (now : ℕ) : List Signal :=
  (store.filter openWithEntry).foldl
    (fun st e => st.map (cycleFn tp priceOf now e)) store

/-! ### Event deduplication cache (src/index.ts) -/

/-- `SEEN_TTL_MS = 5 * 60_000` from src/index.ts. -/
def SEEN_TTL_MS : ℕ := 5 * 60000

/-- The `seenEventKeys` map: event key to first-seen timestamp. -/
abbrev Cache := List (String × ℕ)

/-- `seenEventKeys.has(key)` — purely a key-membership test, with no look at
the stored timestamp. -/
def hasKey (m : Cache) (k : String) : Bool :=
  m.any (fun kv => kv.1 == k)

/-- The webhook handler's dedup step for one delivery of key `k` at time
`now`: `if (seenEventKeys.has(key)) continue; seenEventKeys.set(key, Date.now())`.
The boolean is `true` when the event goes on to be processed. -/
def deliverStep (m : Cache) (k : String) (now : ℕ) : Cache × Bool :=
  if hasKey m k then (m, false) else ((k, now) :: m, true)

/-- One run of the periodic `cleanMapsNow` sweep at time `now`: delete the
entries with `now - t > SEEN_TTL_MS` (ℕ-subtraction agrees with JS since a
negative difference never exceeds the TTL). -/
def sweepCache (m : Cache) (now : ℕ) : Cache :=
  m.filter (fun kv => !decide (SEEN_TTL_MS < now - kv.2))

/-- A sequence of sweep runs at the given times. -/
def sweepMany (m : Cache) (times : List ℕ) : Cache :=
  times.foldl sweepCache m

/-! ### Route Resolution Algorithm (src/trader.ts) -/

/-- JS `x || d` on numbers (`0` and `NaN` fall back to the default). -/
def jsOrNat (x d : ℕ) : ℕ := if x = 0 then d else x

/-- The buy-path slippage of `buyTokenWithSol`:
`Math.min(MAX_SLIPPAGE_BPS, Math.max(JUP_SLIPPAGE_BPS || 200, 200))`. -/
def buySlippage (jupBps maxBps : ℕ) : ℕ :=
  min maxBps (max (jsOrNat jupBps 200) 200)

/-- Worker for `setDedup`: `seen` holds the values already emitted. -/
def setDedupAux : List ℕ → List ℕ → List ℕ
  | [], _ => []
  | x :: xs, seen =>
    if x ∈ seen then setDedupAux xs seen
    else x :: setDedupAux xs (x :: seen)

/-- `Array.from(new Set([...]))`: removes duplicates keeping the first
occurrence, in insertion order. -/
def setDedup (l : List ℕ) : List ℕ := setDedupAux l []

/-- The sell-path slippage ladder of `sellTokenForSol`:
`cap = Math.min(MAX_SLIPPAGE_BPS, 1100)`, `base = Math.max(JUP_SLIPPAGE_BPS || 200, 200)`,
`slips = Array.from(new Set([base, 400, 700, 900, cap]))`. -/
def sellSlips (jupBps maxBps : ℕ) : List ℕ :=
  setDedup [max (jsOrNat jupBps 200) 200, 400, 700, 900, min maxBps 1100]

/-- Does the second char list start with the first? -/
def leadsWith : List Char → List Char → Bool
  | [], _ => true
  | _ :: _, [] => false
  | a :: as, b :: bs => a == b && leadsWith as bs

/-- Substring test on char lists. -/
def containsChars (sub : List Char) : List Char → Bool
  | [] => leadsWith sub []
  | c :: rest => leadsWith sub (c :: rest) || containsChars sub rest

/-- The `/noviableroute/i` test on an error message (case-insensitive
substring match). -/
def isNoViable (msg : String) : Bool :=
  containsChars "noviableroute".toList (msg.toList.map Char.toLower)

/-- The three hop shapes a quote/swap attempt of `sellTokenForSol` can take. -/
inductive Hop
  | toSOL
  | toUSDC
  | usdcToSOL
deriving DecidableEq, Repr

/-- One quote-and-swap attempt: hop, input amount in base units, slippage. -/
structure SwapReq where
  hop : Hop
  amount : ℕ
  slip : ℕ
deriving DecidableEq, Repr

/-- An oracle standing for `getQuote` + `doSwap` of one attempt: `.ok sig` is
a confirmed swap; `.error "noviableroute"` is the throw for a `null` quote;
any other `.error msg` is a `doSwap` failure. -/
abbrev SwapOracle := SwapReq → Except String String

/-- The terminal error of the sell cascade. -/
def exhaustMsg : String := "noviableroute: token illiquid or dust too small"

/-- One direct tier of the sell cascade: walk the slippage ladder; a success
or a non-`noviableroute` error ends the cascade (`some _`); exhausting the
ladder on `noviableroute` errors falls through to the next tier (`none`). -/
def tryTier (attempt : ℕ → Except String String) : List ℕ → Option (Except String String)
  | [] => none
  | s :: rest =>
    match attempt s with
    | .ok sg => some (.ok sg)
    | .error msg =>
      if isNoViable msg then tryTier attempt rest else some (.error msg)

/-- The two-hop tier of `sellTokenForSol`: token → USDC across the ladder;
after a first-hop success the USDC → SOL second hop is best-effort (its
failure or missing route is swallowed and the first-hop signature returned);
exhausting the ladder throws the illiquidity error. -/
def tryTier3 (env : SwapOracle) (usdcBal : ℕ) (amt : ℕ) : List ℕ → Except String String
  | [] => .error exhaustMsg
  | s :: rest =>
    match env ⟨.toUSDC, amt, s⟩ with
    | .ok sig1 =>
      if 0 < usdcBal then
        match env ⟨.usdcToSOL, usdcBal, s⟩ with
        | .ok sig2 => .ok (sig1 ++ " , " ++ sig2)
        | .error _ => .ok sig1
      else .ok sig1
    | .error msg =>
      if isNoViable msg then tryTier3 env usdcBal amt rest else .error msg

/-- `sellTokenForSol` of src/trader.ts: guard clauses, then the ordered
cascade — direct full amount, direct 95% amount, two-hop through USDC — each
tier tried across the same slippage ladder.  `usdcBal` is the USDC balance
observed between the two hops of tier 3. -/
def sellTokenForSol (env : SwapOracle) (usdcBal : ℕ) (jupBps maxBps : ℕ)
    (mintIsSol : Bool) (amountRaw : ℕ) : Except String String :=
  if mintIsSol then .error "nothing to sell: mint is SOL"
  else if amountRaw = 0 then .error "nothing to sell: zero balance"
  else
    let slips := sellSlips jupBps maxBps
    match tryTier (fun s => env ⟨.toSOL, amountRaw, s⟩) slips with
    | some r => r
    | none =>
      let ninetyFive := amountRaw * 95 / 100
      match (if 0 < ninetyFive then tryTier (fun s => env ⟨.toSOL, ninetyFive, s⟩) slips
             else none) with
      | some r => r
      | none => tryTier3 env usdcBal (if 0 < ninetyFive then ninetyFive else amountRaw) slips

/-- The quote phase of one iteration of `buyTokenWithSol` (src/trader.ts).
`qresp i a = true` means the `i`-th `getQuote` call of the iteration,
requesting input amount `a`, returns a usable route (calls are numbered so
that the re-quote after a successful probe is a fresh call).  The returned
value is the requested input amount of the quote handed to `doSwap`. -/
def buyAttempt (qresp : ℕ → ℕ → Bool) (budget probeAmt : ℕ) : Except String ℕ :=
  if qresp 0 budget then .ok budget
  else
    let probe := max budget probeAmt
    if qresp 1 probe then
      if qresp 2 budget then .ok budget else .error "noviableroute"
    else .error "noviableroute"

/-! ### Derived forms used to state the claims -/

/-- A buy event as fed to `upsertBuy` by the webhook handler: the aggregated
amount, the snapshot price (`priceUsd ?? undefined` already applied) and the
arrival time. -/
structure BuyEvent where
  amount : ℚ
  priceUsd : Option ℚ
  time : ℕ
deriving DecidableEq, Repr

/-- The `upsertBuy` parameters built from one buy event for a fixed
(wallet, mint) and default stop-loss. -/
def buyParamsOf (w m : String) (slp : ℚ) (e : BuyEvent) : BuyParams :=
  { wallet := w, mint := m, amount := e.amount, stopLossPct := slp,
    source := none, priceUsd := e.priceUsd, symbol := none }

/-- Upserting a sequence of buy events for the same (wallet, mint), each at
its own arrival time. -/
def applyBuys (w m : String) (slp : ℚ) (store : List Signal)
    (evs : List BuyEvent) : List Signal :=
  evs.foldl (fun st e => (upsertBuy st (buyParamsOf w m slp e) e.time).1) store

/-- A Signal with its `trader` record blanked, for stating field-frame
conditions. -/
def sansTrader (s : Signal) : Signal := { s with trader := none }

/-- The `trader.buySigs` and `trader.solSpent` parts of a Signal. -/
def traderBuyParts (s : Signal) : Option (List String) × Option ℚ :=
  (s.trader.bind TraderInfo.buySigs, s.trader.bind TraderInfo.solSpent)

/-- The `trader.sellSigs` part of a Signal. -/
def sellSigsOf (s : Signal) : Option (List String) :=
  s.trader.bind TraderInfo.sellSigs

/-! ### Concrete sample data used by witnesses and counterexamples -/

/-- A plain open Signal as `upsertBuy` would create it. -/
def demoOpen : Signal :=
  { ts := 0, wallet := "w", mint := "m", amount := 1, entryPriceUsd := none,
    symbol := none, status := .opened, stopLossPct := -1/2, source := none,
    updatedTs := some 0, occurrences := some 1, closedTs := none,
    closeReason := none, trader := none, exitPriceUsd := none, exitPnlPct := none }

/-- The closed variant of `demoOpen`. -/
def demoClosed : Signal :=
  { demoOpen with status := .closed, closedTs := some 50,
                  closeReason := some "sold_by_wallet" }

/-- Matching buy parameters for the demo (wallet, mint). -/
def demoParams : BuyParams :=
  { wallet := "w", mint := "m", amount := 1, stopLossPct := -1/2,
    source := none, priceUsd := none, symbol := none }

/-! ### General lemmas about the embedded operations -/

theorem isOpenMatch_iff {w m : String} {s : Signal} :
    isOpenMatch w m s = true ↔ s.status = .opened ∧ s.wallet = w ∧ s.mint = m := by
  simp [isOpenMatch]

theorem isOpenMatch_of_closed {w m : String} {s : Signal}
    (h : s.status = .closed) : isOpenMatch w m s = false := by
  simp [isOpenMatch, h]

theorem closeIfOpenMatch_of_not_match {w m reason : String} {now : ℕ} {s : Signal}
    (h : isOpenMatch w m s = false) : closeIfOpenMatch w m reason now s = s := by
  simp [closeIfOpenMatch, h]

theorem closeSignalIfMatch_of_not_match {w m reason : String} {price : ℚ} {now : ℕ}
    {s : Signal} (h : isOpenMatch w m s = false) :
    closeSignalIfMatch w m price reason now s = s := by
  simp [closeSignalIfMatch, h]

theorem setStopLossIfOpen_of_closed {newPct : ℚ} {s : Signal}
    (h : s.status = .closed) : setStopLossIfOpen newPct s = s := by
  simp [setStopLossIfOpen, h]

theorem filter_openMatch_nil_of_all_closed {store : List Signal} {w m : String}
    (h : ∀ s ∈ store, s.wallet = w → s.mint = m → s.status = .closed) :
    store.filter (isOpenMatch w m) = [] := by
  apply List.filter_eq_nil_iff.mpr
  intro s hs hmatch
  obtain ⟨hst, hw, hm⟩ := isOpenMatch_iff.mp hmatch
  have := h s hs hw hm
  rw [this] at hst
  cases hst

/-! ### Claim C3 -/

/-- C3: `closeByWalletAndMint` is idempotent on already-closed positions.
For every store in which every Signal for the (wallet, mint) pair is already
closed, the call returns a closed count of 0 and the saved list is exactly
the input list: no Signal is mutated, in particular `closedTs` and
`closeReason` are untouched. -/
theorem close_idempotent_on_closed (store : List Signal) (w m reason : String)
    (now : ℕ)
    (h : ∀ s ∈ store, s.wallet = w → s.mint = m → s.status = .closed) :
    closeByWalletAndMint store w m reason now = (store, 0) := by
  unfold closeByWalletAndMint
  have hnil := filter_openMatch_nil_of_all_closed h
  have hmap : store.map (closeIfOpenMatch w m reason now) = store := by
    have hmem : ∀ s ∈ store, isOpenMatch w m s = false := by
      intro s hs
      by_contra hc
      have : s ∈ store.filter (isOpenMatch w m) :=
        List.mem_filter.mpr ⟨hs, by simpa using hc⟩
      simp [hnil] at this
    calc store.map (closeIfOpenMatch w m reason now)
        = store.map id := List.map_congr_left
          (fun s hs => closeIfOpenMatch_of_not_match (hmem s hs))
      _ = store := List.map_id store
  rw [hmap, hnil]
  rfl

/-- Witness for C3 at a concrete store holding one closed Signal for the
(wallet, mint) pair. -/
theorem close_idempotent_on_closed_witness :
    closeByWalletAndMint [demoClosed] "w" "m" "sold_by_wallet" 99 = ([demoClosed], 0) :=
  close_idempotent_on_closed [demoClosed] "w" "m" "sold_by_wallet" 99
    (by intro s hs _ _; simp at hs; simp [hs, demoClosed, demoOpen])

/-! ### Claim C10 -/

/-- C10: `closeByWalletMintWithExit` always stamps `exitPriceUsd` on each open
(wallet, mint) Signal it closes, but computes `exitPnlPct = (exit - entry)/entry`
only when `entryPriceUsd` is a number strictly greater than 0; a Signal with
missing or non-positive `entryPriceUsd` is still closed with the given reason
and exit price while `exitPnlPct` stays as it was (`undefined` on every
signal that has never been closed before). -/
theorem close_with_exit_stamps (store : List Signal) (w m : String) (price : ℚ)
    (reason : String) (now : ℕ) (i : ℕ) (hi : i < store.length)
    (hopen : (store.get ⟨i, hi⟩).status = .opened)
    (hw : (store.get ⟨i, hi⟩).wallet = w) (hm : (store.get ⟨i, hi⟩).mint = m) :
    ∃ h' : i < ((closeByWalletMintWithExit store w m price reason now).1).length,
      ((closeByWalletMintWithExit store w m price reason now).1).get ⟨i, h'⟩ =
        { store.get ⟨i, hi⟩ with
          status := .closed, closedTs := some now, closeReason := some reason,
          exitPriceUsd := some price,
          exitPnlPct :=
            match (store.get ⟨i, hi⟩).entryPriceUsd with
            | some e => if 0 < e then some ((price - e) / e)
                        else (store.get ⟨i, hi⟩).exitPnlPct
            | none => (store.get ⟨i, hi⟩).exitPnlPct } := by
  have hlen : ((closeByWalletMintWithExit store w m price reason now).1).length
      = store.length := by
    simp [closeByWalletMintWithExit]
  refine ⟨by omega, ?_⟩
  have hmatch : isOpenMatch w m (store.get ⟨i, hi⟩) = true :=
    isOpenMatch_iff.mpr ⟨hopen, hw, hm⟩
  rw [List.get_eq_getElem] at hmatch
  simp only [closeByWalletMintWithExit, List.get_eq_getElem, List.getElem_map]
  simp [closeSignalIfMatch, hmatch]

/-- Witness for C10: a closed signal with an unpriced entry gets the exit
price and reason but no PnL. -/
theorem close_with_exit_stamps_witness :
    ∃ h' : 0 < ((closeByWalletMintWithExit [demoOpen] "w" "m" 3 "stop_loss" 99).1).length,
      ((closeByWalletMintWithExit [demoOpen] "w" "m" 3 "stop_loss" 99).1).get ⟨0, h'⟩ =
        { demoOpen with
          status := .closed, closedTs := some 99, closeReason := some "stop_loss",
          exitPriceUsd := some 3, exitPnlPct := none } := by
  have h := close_with_exit_stamps [demoOpen] "w" "m" 3 "stop_loss" 99 0 (by simp)
    (by simp [demoOpen]) (by simp [demoOpen]) (by simp [demoOpen])
  simpa [demoOpen] using h

/-! ### Claim C5 -/

theorem mem_setDedupAux {x : ℕ} :
    ∀ {l seen : List ℕ}, x ∈ setDedupAux l seen → x ∈ l := by
  intro l
  induction l with
  | nil => intro seen h; simp [setDedupAux] at h
  | cons y ys ih =>
    intro seen h
    simp only [setDedupAux] at h
    by_cases hy : y ∈ seen
    · simp [hy] at h
      exact List.mem_cons_of_mem _ (ih h)
    · simp [hy] at h
      rcases h with h | h
      · simp [h]
      · exact List.mem_cons_of_mem _ (ih h)

theorem mem_setDedup {x : ℕ} {l : List ℕ} (h : x ∈ setDedup l) : x ∈ l :=
  mem_setDedupAux h

/-- C5 (corrected): the buy-path slippage is always at most
`MAX_SLIPPAGE_BPS`; but the sell-path ladder's base rung and fixed
intermediate rungs (400, 700, 900) are not clamped to `MAX_SLIPPAGE_BPS` —
every rung is bounded by the configured maximum only under the side
conditions `900 ≤ MAX_SLIPPAGE_BPS` and base slippage ≤ `MAX_SLIPPAGE_BPS`
(both hold in the default configuration 200/1100). -/
theorem slippage_ceiling_amended :
    (∀ jupBps maxBps : ℕ, buySlippage jupBps maxBps ≤ maxBps)
    ∧ (∀ jupBps maxBps : ℕ, 900 ≤ maxBps →
        max (jsOrNat jupBps 200) 200 ≤ maxBps →
        ∀ x ∈ sellSlips jupBps maxBps, x ≤ maxBps) := by
  constructor
  · intro j mx
    exact min_le_left _ _
  · intro j mx h9 hb x hx
    have hx' := mem_setDedup hx
    simp only [List.mem_cons, List.not_mem_nil, or_false] at hx'
    rcases hx' with h | h | h | h | h
    · omega
    · omega
    · omega
    · omega
    · rw [h]; exact min_le_left _ _

/-- Witness for C5's amended theorem at the default configuration
(`JUP_SLIPPAGE_BPS = 200`, `MAX_SLIPPAGE_BPS = 1100`). -/
theorem slippage_ceiling_amended_witness :
    buySlippage 200 1100 ≤ 1100 ∧ ∀ x ∈ sellSlips 200 1100, x ≤ 1100 :=
  ⟨slippage_ceiling_amended.1 200 1100,
   slippage_ceiling_amended.2 200 1100 (by decide) (by decide)⟩

/-- C5 counterexample: with `JUP_SLIPPAGE_BPS = 2000` and the default
`MAX_SLIPPAGE_BPS = 1100`, the sell ladder's base rung is 2000 bps, a
requested slippage strictly above the configured maximum. -/
theorem slippage_ceiling_counterexample :
    2000 ∈ sellSlips 2000 1100 ∧ ¬(2000 ≤ 1100) := by decide

/-! ### Claim C7 -/

/-- C7: in one buy iteration, a missing route at the configured budget
triggers a probe at `max(budget, probeAmt)`; a failed probe fails the attempt
with "noviableroute"; a successful probe forces a fresh re-quote at the real
budget; and the quote handed to `doSwap` always has the configured budget as
its input amount — never the probe amount. -/
theorem buy_probe_requote (qresp : ℕ → ℕ → Bool) (budget probeAmt : ℕ) :
    (∀ a, buyAttempt qresp budget probeAmt = .ok a → a = budget)
    ∧ (qresp 0 budget = false → qresp 1 (max budget probeAmt) = false →
        buyAttempt qresp budget probeAmt = .error "noviableroute")
    ∧ (qresp 0 budget = false → qresp 1 (max budget probeAmt) = true →
        qresp 2 budget = true → buyAttempt qresp budget probeAmt = .ok budget) := by
  refine ⟨?_, ?_, ?_⟩
  · intro a ha
    unfold buyAttempt at ha
    by_cases h0 : qresp 0 budget = true
    · simp [h0] at ha; exact ha.symm
    · simp only [Bool.not_eq_true] at h0
      by_cases h1 : qresp 1 (max budget probeAmt) = true
      · by_cases h2 : qresp 2 budget = true
        · simp [h0, h1, h2] at ha; exact ha.symm
        · simp only [Bool.not_eq_true] at h2
          simp [h0, h1, h2] at ha
      · simp only [Bool.not_eq_true] at h1
        simp [h0, h1] at ha
  · intro h0 h1
    simp [buyAttempt, h0, h1]
  · intro h0 h1 h2
    simp [buyAttempt, h0, h1, h2]

/-- Witness for C7: with no route anywhere, the attempt at budget 5 and probe
amount 7 fails with "noviableroute". -/
theorem buy_probe_requote_witness :
    buyAttempt (fun _ _ => false) 5 7 = .error "noviableroute" :=
  (buy_probe_requote (fun _ _ => false) 5 7).2.1 rfl rfl

/-! ### Claim C8 -/

theorem isNoViable_marker : isNoViable "noviableroute" = true := by decide

theorem tryTier_all_noRoute {attempt : ℕ → Except String String}
    (h : ∀ s, attempt s = .error "noviableroute") :
    ∀ slips : List ℕ, tryTier attempt slips = none := by
  intro slips
  induction slips with
  | nil => rfl
  | cons s rest ih =>
    simp [tryTier, h s, isNoViable_marker, ih]

theorem tryTier3_all_noRoute {env : SwapOracle} {usdcBal amt : ℕ}
    (h : ∀ s, env ⟨.toUSDC, amt, s⟩ = .error "noviableroute") :
    ∀ slips : List ℕ, tryTier3 env usdcBal amt slips = .error exhaustMsg := by
  intro slips
  induction slips with
  | nil => rfl
  | cons s rest ih =>
    simp [tryTier3, h s, isNoViable_marker, ih]

theorem sellSlips_cons (j mx : ℕ) :
    sellSlips j mx =
      max (jsOrNat j 200) 200 :: setDedupAux [400, 700, 900, min mx 1100]
        [max (jsOrNat j 200) 200] := by
  simp [sellSlips, setDedup, setDedupAux]

theorem tryTier_none_of_advances {attempt : ℕ → Except String String} :
    ∀ slips : List ℕ,
      (∀ x ∈ slips, ∃ m, attempt x = .error m ∧ isNoViable m = true) →
      tryTier attempt slips = none := by
  intro slips
  induction slips with
  | nil => intro _; rfl
  | cons s rest ih =>
    intro h
    obtain ⟨m, hm, hv⟩ := h s (by simp)
    simp [tryTier, hm, hv, ih (fun x hx => h x (by simp [hx]))]

theorem tryTier_split (attempt : ℕ → Except String String) :
    ∀ (pre : List ℕ) (s : ℕ) (post : List ℕ) (msg : String),
      (∀ x ∈ pre, ∃ m, attempt x = .error m ∧ isNoViable m = true) →
      attempt s = .error msg → isNoViable msg = false →
      tryTier attempt (pre ++ s :: post) = some (.error msg) := by
  intro pre
  induction pre with
  | nil =>
    intro s post msg _ hs hmsg
    simp [tryTier, hs, hmsg]
  | cons x rest ih =>
    intro s post msg hpre hs hmsg
    obtain ⟨m, hm, hv⟩ := hpre x (by simp)
    simp only [List.cons_append, tryTier, hm, hv, if_true]
    exact ih s post msg (fun y hy => hpre y (by simp [hy])) hs hmsg

theorem tryTier3_split (env : SwapOracle) (usdcBal amt : ℕ) :
    ∀ (pre : List ℕ) (s : ℕ) (post : List ℕ) (msg : String),
      (∀ x ∈ pre, ∃ m, env ⟨.toUSDC, amt, x⟩ = .error m ∧ isNoViable m = true) →
      env ⟨.toUSDC, amt, s⟩ = .error msg → isNoViable msg = false →
      tryTier3 env usdcBal amt (pre ++ s :: post) = .error msg := by
  intro pre
  induction pre with
  | nil =>
    intro s post msg _ hs hmsg
    simp [tryTier3, hs, hmsg]
  | cons x rest ih =>
    intro s post msg hpre hs hmsg
    obtain ⟨m, hm, hv⟩ := hpre x (by simp)
    simp only [List.cons_append, tryTier3, hm, hv, if_true]
    exact ih s post msg (fun y hy => hpre y (by simp [hy])) hs hmsg

/-- C8: in the sell cascade, (a) an environment in which every attempt reports
"no viable route" exhausts all tiers — full amount, 95% amount, two-hop via
USDC — and fails with the terminal `noviableroute` illiquidity error; and an
error whose message does not match the no-viable-route marker aborts the
cascade immediately and propagates verbatim from *any* rung of any tier,
while only marker-matching failures advance rung to rung and tier to tier:
(b) a non-matching error at an arbitrary rung of the full-amount tier, after
marker-matching failures on every earlier rung, is the cascade's result;
(c) likewise at an arbitrary rung of the 95%-amount tier once the full-amount
tier exhausted on marker-matching failures; (d) likewise at an arbitrary rung
of the two-hop tier's first hop once both direct tiers exhausted. -/
theorem sell_cascade_errors :
    (∀ (env : SwapOracle) (usdcBal jupBps maxBps amt : ℕ), amt ≠ 0 →
        (∀ r, env r = .error "noviableroute") →
        sellTokenForSol env usdcBal jupBps maxBps false amt = .error exhaustMsg)
    ∧ (∀ (env : SwapOracle) (usdcBal jupBps maxBps amt : ℕ) (msg : String)
        (pre post : List ℕ) (s : ℕ), amt ≠ 0 → isNoViable msg = false →
        sellSlips jupBps maxBps = pre ++ s :: post →
        (∀ x ∈ pre, ∃ m, env ⟨.toSOL, amt, x⟩ = .error m ∧ isNoViable m = true) →
        env ⟨.toSOL, amt, s⟩ = .error msg →
        sellTokenForSol env usdcBal jupBps maxBps false amt = .error msg)
    ∧ (∀ (env : SwapOracle) (usdcBal jupBps maxBps amt : ℕ) (msg : String)
        (pre post : List ℕ) (s : ℕ), amt ≠ 0 → isNoViable msg = false →
        0 < amt * 95 / 100 →
        sellSlips jupBps maxBps = pre ++ s :: post →
        (∀ x ∈ sellSlips jupBps maxBps, ∃ m,
          env ⟨.toSOL, amt, x⟩ = .error m ∧ isNoViable m = true) →
        (∀ x ∈ pre, ∃ m,
          env ⟨.toSOL, amt * 95 / 100, x⟩ = .error m ∧ isNoViable m = true) →
        env ⟨.toSOL, amt * 95 / 100, s⟩ = .error msg →
        sellTokenForSol env usdcBal jupBps maxBps false amt = .error msg)
    ∧ (∀ (env : SwapOracle) (usdcBal jupBps maxBps amt : ℕ) (msg : String)
        (pre post : List ℕ) (s : ℕ), amt ≠ 0 → isNoViable msg = false →
        sellSlips jupBps maxBps = pre ++ s :: post →
        (∀ a x : ℕ, ∃ m, env ⟨.toSOL, a, x⟩ = .error m ∧ isNoViable m = true) →
        (∀ x ∈ pre, ∃ m,
          env ⟨.toUSDC, (if 0 < amt * 95 / 100 then amt * 95 / 100 else amt), x⟩
            = .error m ∧ isNoViable m = true) →
        env ⟨.toUSDC, (if 0 < amt * 95 / 100 then amt * 95 / 100 else amt), s⟩
          = .error msg →
        sellTokenForSol env usdcBal jupBps maxBps false amt = .error msg) := by
  refine ⟨?_, ?_, ?_, ?_⟩
  · intro env usdcBal j mx amt hamt h
    have h1 : ∀ s, env ⟨.toSOL, amt, s⟩ = .error "noviableroute" := fun s => h _
    have h2 : ∀ s, env ⟨.toSOL, amt * 95 / 100, s⟩ = .error "noviableroute" :=
      fun s => h _
    have h3 : ∀ s, env ⟨.toUSDC, (if 0 < amt * 95 / 100 then amt * 95 / 100 else amt),
        s⟩ = .error "noviableroute" := fun s => h _
    simp only [sellTokenForSol, Bool.false_eq_true, if_false, hamt,
      tryTier_all_noRoute h1, tryTier_all_noRoute h2, ite_self]
    exact tryTier3_all_noRoute h3 _
  · intro env usdcBal j mx amt msg pre post s hamt hmsg hsplit hpre henv
    have h1 : tryTier (fun x => env ⟨.toSOL, amt, x⟩) (sellSlips j mx)
        = some (.error msg) := by
      rw [hsplit]
      exact tryTier_split _ pre s post msg hpre henv hmsg
    simp only [sellTokenForSol, Bool.false_eq_true, if_false, hamt, h1]
  · intro env usdcBal j mx amt msg pre post s hamt hmsg hnf hsplit hall hpre henv
    have h1 : tryTier (fun x => env ⟨.toSOL, amt, x⟩) (sellSlips j mx) = none :=
      tryTier_none_of_advances _ hall
    have h2 : tryTier (fun x => env ⟨.toSOL, amt * 95 / 100, x⟩) (sellSlips j mx)
        = some (.error msg) := by
      rw [hsplit]
      exact tryTier_split _ pre s post msg hpre henv hmsg
    simp only [sellTokenForSol, Bool.false_eq_true, if_false, hamt, h1, hnf,
      if_true, h2]
  · intro env usdcBal j mx amt msg pre post s hamt hmsg hsplit hall hpre henv
    have h1 : tryTier (fun x => env ⟨.toSOL, amt, x⟩) (sellSlips j mx) = none :=
      tryTier_none_of_advances _ (fun x _ => hall amt x)
    have h2 : (if 0 < amt * 95 / 100 then
        tryTier (fun x => env ⟨.toSOL, amt * 95 / 100, x⟩) (sellSlips j mx)
        else none) = none := by
      split
      · exact tryTier_none_of_advances _ (fun x _ => hall (amt * 95 / 100) x)
      · rfl
    have h3 : tryTier3 env usdcBal
        (if 0 < amt * 95 / 100 then amt * 95 / 100 else amt) (sellSlips j mx)
        = .error msg := by
      rw [hsplit]
      exact tryTier3_split env usdcBal _ pre s post msg hpre henv hmsg
    simp only [sellTokenForSol, Bool.false_eq_true, if_false, hamt, h1, h2, h3]

/-- Witness for C8: an all-no-route environment exhausts the cascade with the
terminal illiquidity error, and an environment that reports no route at the
200 bps base rung but a swap failure at the 400 bps rung aborts the ladder at
that second rung, propagating the swap error verbatim. -/
theorem sell_cascade_errors_witness :
    sellTokenForSol (fun _ => .error "noviableroute") 0 200 1100 false 1000
      = .error exhaustMsg
    ∧ sellTokenForSol
        (fun r => if r.slip == 400 then .error "swap http 500: boom"
                  else .error "noviableroute") 0 200 1100 false 1000
      = .error "swap http 500: boom" :=
  ⟨sell_cascade_errors.1 (fun _ => .error "noviableroute") 0 200 1100 1000
      (by decide) (fun _ => rfl),
   sell_cascade_errors.2.1
      (fun r => if r.slip == 400 then .error "swap http 500: boom"
                else .error "noviableroute") 0 200 1100 1000
      "swap http 500: boom" [200] [700, 900, 1100] 400
      (by decide) (by decide) (by decide)
      (by
        intro x hx
        simp only [List.mem_singleton] at hx
        subst hx
        exact ⟨"noviableroute", rfl, isNoViable_marker⟩)
      rfl⟩

/-! ### Claim C6 -/

/-- C6 (corrected): a key first inserted at time `T` is rejected on every
redelivery for as long as every sweep so far ran at a time `≤ T + TTL`
(which is the case for any redelivery at `T + TTL − ε`, since sweeps precede
it); after expiry the key is accepted again only once some sweep has run at a
time strictly greater than `T + TTL` — acceptance is triggered by the
periodic sweep, not by the TTL instant itself. -/
theorem dedup_ttl_amended :
    (∀ (k : String) (T : ℕ) (times : List ℕ) (T' : ℕ),
        (∀ s ∈ times, s ≤ T + SEEN_TTL_MS) →
        (deliverStep (sweepMany ((deliverStep [] k T).1) times) k T').2 = false)
    ∧ (∀ (k : String) (T s T' : ℕ), T + SEEN_TTL_MS < s →
        (deliverStep (sweepCache ((deliverStep [] k T).1) s) k T').2 = true) := by
  constructor
  · intro k T times T' htimes
    have hins : (deliverStep [] k T).1 = [(k, T)] := by
      simp [deliverStep, hasKey]
    have hsweep : sweepMany [(k, T)] times = [(k, T)] := by
      induction times with
      | nil => rfl
      | cons s rest ih =>
        have hkeep : sweepCache [(k, T)] s = [(k, T)] := by
          have hle : s ≤ T + SEEN_TTL_MS := htimes s (by simp)
          have : ¬ SEEN_TTL_MS < s - T := by omega
          simp [sweepCache, this]
        have hrest : ∀ s' ∈ rest, s' ≤ T + SEEN_TTL_MS := by
          intro s' hs'; exact htimes s' (by simp [hs'])
        simpa [sweepMany, hkeep] using ih hrest
    rw [hins, hsweep]
    simp [deliverStep, hasKey]
  · intro k T s T' hgt
    have hins : (deliverStep [] k T).1 = [(k, T)] := by
      simp [deliverStep, hasKey]
    have hdrop : sweepCache [(k, T)] s = [] := by
      have : SEEN_TTL_MS < s - T := by omega
      simp [sweepCache, this]
    rw [hins, hdrop]
    simp [deliverStep, hasKey]

/-- Witness for C6's amended theorem. -/
theorem dedup_ttl_amended_witness :
    (deliverStep (sweepMany ((deliverStep [] "k" 0).1) [60000]) "k" 60001).2 = false
    ∧ (deliverStep (sweepCache ((deliverStep [] "k" 0).1) 300001) "k" 300002).2 = true :=
  ⟨dedup_ttl_amended.1 "k" 0 [60000] 60001 (by decide),
   dedup_ttl_amended.2 "k" 0 300001 300002 (by decide)⟩

/-- C6 counterexample: with the code's 60-second sweep cadence, a key first
seen at time 0 and redelivered at `TTL + 1` ms is still rejected — none of
the sweeps up to that moment has removed it — contradicting the claim that a
delivery at `T + TTL + ε` is accepted as new. -/
theorem dedup_ttl_counterexample :
    (deliverStep
        (sweepMany ((deliverStep [] "k" 0).1) [60000, 120000, 180000, 240000, 300000])
        "k" (SEEN_TTL_MS + 1)).2 = false := by decide

/-! ### Claim C1 -/

theorem mergeInto_isOpenMatch {w m : String} {s : Signal} {p : BuyParams} {now : ℕ}
    (h : isOpenMatch w m s = true) : isOpenMatch w m (mergeInto s p now) = true := by
  obtain ⟨h1, h2, h3⟩ := isOpenMatch_iff.mp h
  exact isOpenMatch_iff.mpr ⟨by simp [mergeInto, h1], by simp [mergeInto, h2],
    by simp [mergeInto, h3]⟩

theorem newSignal_isOpenMatch (p : BuyParams) (now : ℕ) :
    isOpenMatch p.wallet p.mint (newSignal p now) = true := by
  simp [isOpenMatch, newSignal]

/-- When every first-open-match is inside the merge window, `upsertAux`
either reports no open match at all, or merges in place without changing the
open (wallet, mint) count. -/
theorem upsertAux_window (p : BuyParams) (now : ℕ) :
    ∀ store : List Signal,
      (∀ s, store.find? (isOpenMatch p.wallet p.mint) = some s →
        now - lastTs s ≤ MERGE_WINDOW_MS) →
      (upsertAux p now store = none →
        store.find? (isOpenMatch p.wallet p.mint) = none)
      ∧ (∀ l sg, upsertAux p now store = some (l, sg) →
          openCountFor l p.wallet p.mint = openCountFor store p.wallet p.mint) := by
  intro store
  induction store with
  | nil =>
    intro _
    exact ⟨fun _ => rfl, fun l sg h => by simp [upsertAux] at h⟩
  | cons s rest ih =>
    intro hwin
    by_cases hm : isOpenMatch p.wallet p.mint s = true
    · have hfind : (s :: rest).find? (isOpenMatch p.wallet p.mint) = some s :=
        List.find?_cons_of_pos _ hm
      have hw : now - lastTs s ≤ MERGE_WINDOW_MS := hwin s hfind
      constructor
      · intro hnone
        simp [upsertAux, hm, hw] at hnone
      · intro l sg hsome
        simp only [upsertAux, hm, if_true, hw, if_pos] at hsome
        have hl : mergeInto s p now :: rest = l :=
          congrArg Prod.fst (Option.some.inj hsome)
        subst hl
        simp [openCountFor, List.filter_cons, hm, mergeInto_isOpenMatch hm]
    · have hm' : isOpenMatch p.wallet p.mint s = false := by
        simpa using hm
      have hfind : (s :: rest).find? (isOpenMatch p.wallet p.mint)
          = rest.find? (isOpenMatch p.wallet p.mint) :=
        List.find?_cons_of_neg _ (by simp [hm'])
      have ihr := ih (fun t ht => hwin t (hfind ▸ ht))
      constructor
      · intro hnone
        rw [hfind]
        apply ihr.1
        simp only [upsertAux, hm', Bool.false_eq_true, if_false] at hnone
        rcases haux : upsertAux p now rest with _ | ⟨l, sg⟩
        · rfl
        · rw [haux] at hnone; simp at hnone
      · intro l sg hsome
        simp only [upsertAux, hm', Bool.false_eq_true, if_false] at hsome
        rcases haux : upsertAux p now rest with _ | ⟨l', sg'⟩
        · rw [haux] at hsome; simp at hsome
        · rw [haux] at hsome
          have hl : s :: l' = l :=
            congrArg Prod.fst (Option.some.inj hsome)
          subst hl
          have := ihr.2 l' sg' haux
          simp only [openCountFor, List.filter_cons, hm', Bool.false_eq_true,
            if_false]
          simpa [openCountFor] using this

/-- If no element is an open (wallet, mint) match, `upsertAux` finds nothing. -/
theorem upsertAux_none_of_no_match (p : BuyParams) (now : ℕ) :
    ∀ store : List Signal,
      (∀ s ∈ store, isOpenMatch p.wallet p.mint s = false) →
      upsertAux p now store = none := by
  intro store
  induction store with
  | nil => intro _; rfl
  | cons s rest ih =>
    intro h
    have hs : isOpenMatch p.wallet p.mint s = false := h s (by simp)
    have hr := ih (fun t ht => h t (by simp [ht]))
    simp [upsertAux, hs, hr]

/-- C1 (corrected): `upsertBuy` alone maintains "at most one open Signal per
(wallet, mint)" only when the first open match is within the 60-second merge
window — an open Signal whose last update is older than the window makes
`upsertBuy` push a *second* open Signal (see the counterexample).  The first
conjunct captures the guard the ingress layer actually relies on: when
`hasOpenSignalForMint` is false (no open signal for the mint at all, any
wallet), `upsertBuy` leaves exactly one open Signal for the pair. -/
theorem upsert_open_invariant_amended (store : List Signal) (p : BuyParams) (now : ℕ) :
    (hasOpenSignalForMint store p.mint = false →
      openCountFor (upsertBuy store p now).1 p.wallet p.mint = 1)
    ∧ (openCountFor store p.wallet p.mint ≤ 1 →
       (∀ s, store.find? (isOpenMatch p.wallet p.mint) = some s →
          now - lastTs s ≤ MERGE_WINDOW_MS) →
       openCountFor (upsertBuy store p now).1 p.wallet p.mint ≤ 1) := by
  constructor
  · intro hguard
    have hno : ∀ s ∈ store, isOpenMatch p.wallet p.mint s = false := by
      intro s hs
      have : ¬ (s.status = .opened ∧ s.mint = p.mint) := by
        intro ⟨h1, h2⟩
        have : hasOpenSignalForMint store p.mint = true := by
          simp only [hasOpenSignalForMint, List.any_eq_true]
          exact ⟨s, hs, by simp [h1, h2]⟩
        rw [hguard] at this; cases this
      simp only [isOpenMatch, decide_eq_false_iff_not]
      intro ⟨h1, h2, h3⟩
      exact this ⟨h1, h3⟩
    have haux := upsertAux_none_of_no_match p now store hno
    have hcount : openCountFor store p.wallet p.mint = 0 := by
      simp only [openCountFor, List.length_eq_zero]
      exact List.filter_eq_nil_iff.mpr (fun s hs => by simp [hno s hs])
    have hnil : store.filter (isOpenMatch p.wallet p.mint) = [] := by
      simpa [openCountFor, List.length_eq_zero] using hcount
    simp only [upsertBuy, haux]
    simp [openCountFor, List.filter_append, hnil, newSignal_isOpenMatch]
  · intro hcount hwin
    rcases haux : upsertAux p now store with _ | ⟨l, sg⟩
    · have hfind := (upsertAux_window p now store hwin).1 haux
      have hzero : openCountFor store p.wallet p.mint = 0 := by
        simp only [openCountFor, List.length_eq_zero]
        apply List.filter_eq_nil_iff.mpr
        intro s hs
        have := List.find?_eq_none.mp hfind s hs
        simpa using this
      have hnil : store.filter (isOpenMatch p.wallet p.mint) = [] := by
        simpa [openCountFor, List.length_eq_zero] using hzero
      simp [upsertBuy, haux, openCountFor, List.filter_append, hnil,
        newSignal_isOpenMatch]
    · have := (upsertAux_window p now store hwin).2 l sg haux
      simp only [upsertBuy, haux]
      omega

/-- Witness for C1's amended theorem: inserting into an empty store yields
exactly one open Signal for the pair. -/
theorem upsert_open_invariant_amended_witness :
    openCountFor (upsertBuy [] demoParams 5).1 demoParams.wallet demoParams.mint = 1 :=
  (upsert_open_invariant_amended [] demoParams 5).1 (by decide)

/-- C1 counterexample: a store holding one open Signal for ("w", "m") whose
last update is 70 seconds old — strictly past the merge window — makes
`upsertBuy` push a second open Signal for the same (wallet, mint), so the
"at most one open Signal per pair" statement about `upsertBuy` is false. -/
theorem upsert_second_open_counterexample :
    openCountFor (upsertBuy [demoOpen] demoParams 70000).1 "w" "m" = 2 := by decide

/-! ### Claim C9 -/

theorem upsertAux_length (p : BuyParams) (now : ℕ) :
    ∀ (l : List Signal) (res : List Signal × Signal),
      upsertAux p now l = some res → res.1.length = l.length := by
  intro l
  induction l with
  | nil => intro res h; simp [upsertAux] at h
  | cons s rest ih =>
    intro res hres
    by_cases hm : isOpenMatch p.wallet p.mint s = true
    · by_cases hw : now - lastTs s ≤ MERGE_WINDOW_MS
      · simp only [upsertAux, hm, if_true, hw, if_pos] at hres
        obtain rfl := Option.some.inj hres
        simp
      · simp [upsertAux, hm, hw] at hres
    · have hm' : isOpenMatch p.wallet p.mint s = false := by simpa using hm
      simp only [upsertAux, hm', Bool.false_eq_true, if_false] at hres
      rcases haux : upsertAux p now rest with _ | ⟨l', sg'⟩
      · rw [haux] at hres; simp at hres
      · rw [haux] at hres
        have hres' : some (s :: l', sg') = some res := hres
        obtain rfl := Option.some.inj hres'
        simp [ih (l', sg') haux]

theorem upsertAux_get_closed (p : BuyParams) (now : ℕ) :
    ∀ (l : List Signal) (res : List Signal × Signal),
      upsertAux p now l = some res →
      ∀ i (h : i < l.length) (h' : i < res.1.length),
        (l.get ⟨i, h⟩).status = .closed → res.1.get ⟨i, h'⟩ = l.get ⟨i, h⟩ := by
  intro l
  induction l with
  | nil => intro res h; simp [upsertAux] at h
  | cons s rest ih =>
    intro res hres i h h' hclosed
    by_cases hm : isOpenMatch p.wallet p.mint s = true
    · by_cases hw : now - lastTs s ≤ MERGE_WINDOW_MS
      · simp only [upsertAux, hm, if_true, hw, if_pos] at hres
        obtain rfl := Option.some.inj hres
        match i with
        | 0 =>
          exfalso
          have hs : s.status = .opened := (isOpenMatch_iff.mp hm).1
          simp only [List.get] at hclosed
          rw [hs] at hclosed
          cases hclosed
        | n + 1 =>
          simp [List.get]
      · simp [upsertAux, hm, hw] at hres
    · have hm' : isOpenMatch p.wallet p.mint s = false := by simpa using hm
      simp only [upsertAux, hm', Bool.false_eq_true, if_false] at hres
      rcases haux : upsertAux p now rest with _ | ⟨l', sg'⟩
      · rw [haux] at hres; simp at hres
      · rw [haux] at hres
        have hres' : some (s :: l', sg') = some res := hres
        obtain rfl := Option.some.inj hres'
        match i with
        | 0 => simp [List.get]
        | n + 1 =>
          have hn : n < rest.length := by simpa using h
          have hn' : n < l'.length := by simpa using h'
          have := ih (l', sg') haux n hn hn' (by simpa [List.get] using hclosed)
          simpa [List.get] using this

theorem attachTraderSell_length :
    ∀ (l : List Signal) (sig : Signal) (j : String),
      (attachTraderSell l sig j).length = l.length := by
  intro l sig j
  induction l with
  | nil => rfl
  | cons x xs ih =>
    by_cases hx : x.ts = sig.ts ∧ x.wallet = sig.wallet ∧ x.mint = sig.mint
    · simp [attachTraderSell, hx]
    · simp [attachTraderSell, hx, ih]

theorem attachTraderSell_get :
    ∀ (l : List Signal) (sig : Signal) (j : String) (i : ℕ)
      (h : i < l.length) (h' : i < (attachTraderSell l sig j).length),
      (attachTraderSell l sig j).get ⟨i, h'⟩ = l.get ⟨i, h⟩
      ∨ (attachTraderSell l sig j).get ⟨i, h'⟩ = addSellSig j (l.get ⟨i, h⟩) := by
  intro l
  induction l with
  | nil => intro sig j i h; simp at h
  | cons x xs ih =>
    intro sig j i h h'
    rw [List.get_eq_getElem, List.get_eq_getElem]
    by_cases hx : x.ts = sig.ts ∧ x.wallet = sig.wallet ∧ x.mint = sig.mint
    · have heq : attachTraderSell (x :: xs) sig j = addSellSig j x :: xs := by
        simp [attachTraderSell, hx]
      match i with
      | 0 => right; simp [heq]
      | n + 1 =>
        left
        simp [heq, List.getElem_cons_succ]
    · have heq : attachTraderSell (x :: xs) sig j = x :: attachTraderSell xs sig j := by
        simp [attachTraderSell, hx]
      match i with
      | 0 => left; simp [heq]
      | n + 1 =>
        have hn : n < xs.length := by simpa using h
        have hn' : n < (attachTraderSell xs sig j).length := by
          have := attachTraderSell_length xs sig j
          simp at h
          omega
        have hih := ih sig j n hn hn'
        rw [List.get_eq_getElem, List.get_eq_getElem] at hih
        simp only [heq, List.getElem_cons_succ]
        exact hih

theorem sansTrader_addSellSig (j : String) (x : Signal) :
    sansTrader (addSellSig j x) = sansTrader x := rfl

theorem traderBuyParts_addSellSig (j : String) (x : Signal) :
    traderBuyParts (addSellSig j x) = traderBuyParts x := by
  cases h : x.trader <;> simp [traderBuyParts, addSellSig, h]

theorem sellSigsOf_addSellSig (j : String) (x : Signal) :
    sellSigsOf (addSellSig j x) = some ((sellSigsOf x).getD [] ++ [j]) := by
  rcases h : x.trader with _ | t
  · simp [sellSigsOf, addSellSig, h]
  · rcases hs : t.sellSigs with _ | ss <;>
      simp [sellSigsOf, addSellSig, h, hs]

theorem map_get_of_fixed {f : Signal → Signal} {store : List Signal} {i : ℕ}
    (hi : i < store.length) (hfix : f (store.get ⟨i, hi⟩) = store.get ⟨i, hi⟩) :
    ∃ h' : i < (store.map f).length,
      (store.map f).get ⟨i, h'⟩ = store.get ⟨i, hi⟩ := by
  refine ⟨by simpa using hi, ?_⟩
  rw [List.get_eq_getElem] at hfix ⊢
  simpa [List.getElem_map] using hfix

/-- C9: once a Signal is closed, `upsertBuy`, `closeByWalletAndMint`,
`closeByWalletMintWithExit` and `updateOpenSignalsStopLoss` all leave it
bit-for-bit unchanged at its position in the store; `attachTraderSell` can
touch it, but only by appending to `trader.sellSigs` — every other field,
including `trader.buySigs` and `trader.solSpent`, is preserved. -/
theorem closed_signal_frozen (store : List Signal) (i : ℕ) (hi : i < store.length)
    (hclosed : (store.get ⟨i, hi⟩).status = .closed) :
    (∀ p now, ∃ h' : i < ((upsertBuy store p now).1).length,
        ((upsertBuy store p now).1).get ⟨i, h'⟩ = store.get ⟨i, hi⟩)
    ∧ (∀ w m reason now,
        ∃ h' : i < ((closeByWalletAndMint store w m reason now).1).length,
          ((closeByWalletAndMint store w m reason now).1).get ⟨i, h'⟩
            = store.get ⟨i, hi⟩)
    ∧ (∀ w m price reason now,
        ∃ h' : i < ((closeByWalletMintWithExit store w m price reason now).1).length,
          ((closeByWalletMintWithExit store w m price reason now).1).get ⟨i, h'⟩
            = store.get ⟨i, hi⟩)
    ∧ (∀ newPct, ∃ h' : i < ((updateOpenSignalsStopLoss store newPct).1).length,
        ((updateOpenSignalsStopLoss store newPct).1).get ⟨i, h'⟩ = store.get ⟨i, hi⟩)
    ∧ (∀ sig jupSig, ∃ h' : i < (attachTraderSell store sig jupSig).length,
        sansTrader ((attachTraderSell store sig jupSig).get ⟨i, h'⟩)
          = sansTrader (store.get ⟨i, hi⟩)
        ∧ traderBuyParts ((attachTraderSell store sig jupSig).get ⟨i, h'⟩)
          = traderBuyParts (store.get ⟨i, hi⟩)
        ∧ (sellSigsOf ((attachTraderSell store sig jupSig).get ⟨i, h'⟩)
            = sellSigsOf (store.get ⟨i, hi⟩)
          ∨ sellSigsOf ((attachTraderSell store sig jupSig).get ⟨i, h'⟩)
            = some ((sellSigsOf (store.get ⟨i, hi⟩)).getD [] ++ [jupSig]))) := by
  refine ⟨?_, ?_, ?_, ?_, ?_⟩
  · intro p now
    rcases haux : upsertAux p now store with _ | res
    · have hres : (upsertBuy store p now).1 = store ++ [newSignal p now] := by
        simp [upsertBuy, haux]
      refine ⟨by simp [hres]; omega, ?_⟩
      rw [List.get_eq_getElem, List.get_eq_getElem]
      simp only [hres]
      exact List.getElem_append_left hi
    · have hres : (upsertBuy store p now).1 = res.1 := by
        simp [upsertBuy, haux]
      have hlen : res.1.length = store.length :=
        upsertAux_length p now store res haux
      refine ⟨by rw [hres, hlen]; exact hi, ?_⟩
      have hgoal := upsertAux_get_closed p now store res haux i hi
        (by rw [hlen]; exact hi) hclosed
      rw [List.get_eq_getElem, List.get_eq_getElem] at hgoal ⊢
      simp only [hres]
      exact hgoal
  · intro w m reason now
    exact map_get_of_fixed hi
      (closeIfOpenMatch_of_not_match (isOpenMatch_of_closed hclosed))
  · intro w m price reason now
    exact map_get_of_fixed hi
      (closeSignalIfMatch_of_not_match (isOpenMatch_of_closed hclosed))
  · intro newPct
    exact map_get_of_fixed hi (setStopLossIfOpen_of_closed hclosed)
  · intro sig jupSig
    have hlen : (attachTraderSell store sig jupSig).length = store.length :=
      attachTraderSell_length store sig jupSig
    refine ⟨by rw [hlen]; exact hi, ?_⟩
    rcases attachTraderSell_get store sig jupSig i hi (by rw [hlen]; exact hi)
      with h | h
    · rw [h]
      exact ⟨rfl, rfl, Or.inl rfl⟩
    · rw [h]
      exact ⟨sansTrader_addSellSig _ _, traderBuyParts_addSellSig _ _,
        Or.inr (sellSigsOf_addSellSig _ _)⟩

/-! ### Claim C2 -/

theorem upsertBuy_singleton_merge (s : Signal) (p : BuyParams) (now : ℕ)
    (h1 : isOpenMatch p.wallet p.mint s = true)
    (h2 : now - lastTs s ≤ MERGE_WINDOW_MS) :
    (upsertBuy [s] p now).1 = [mergeInto s p now] := by
  simp [upsertBuy, upsertAux, h1, h2]

theorem applyBuys_singleton (w m : String) (slp : ℚ) :
    ∀ (evs : List BuyEvent) (s : Signal),
      s.status = .opened → s.wallet = w → s.mint = m →
      List.Chain' (fun a b => b - a ≤ MERGE_WINDOW_MS)
        (lastTs s :: evs.map BuyEvent.time) →
      applyBuys w m slp [s] evs
        = [evs.foldl (fun acc e => mergeInto acc (buyParamsOf w m slp e) e.time) s] := by
  intro evs
  induction evs with
  | nil => intro s _ _ _ _; rfl
  | cons e rest ih =>
    intro s hst hw hm hchain
    rw [List.map_cons] at hchain
    rcases List.chain'_cons.mp hchain with ⟨hwin, htail⟩
    have hmatch : isOpenMatch (buyParamsOf w m slp e).wallet
        (buyParamsOf w m slp e).mint s = true := by
      simp [buyParamsOf, isOpenMatch, hst, hw, hm]
    have hstep : applyBuys w m slp [s] (e :: rest)
        = applyBuys w m slp [mergeInto s (buyParamsOf w m slp e) e.time] rest := by
      simp only [applyBuys, List.foldl_cons]
      rw [upsertBuy_singleton_merge s _ e.time hmatch hwin]
    rw [hstep,
      ih (mergeInto s (buyParamsOf w m slp e) e.time)
        (by simp [mergeInto, hst]) (by simp [mergeInto, hw]) (by simp [mergeInto, hm])
        (by simpa [lastTs, mergeInto] using htail)]
    simp [List.foldl_cons]

theorem foldMerge_amount (w m : String) (slp : ℚ) :
    ∀ (evs : List BuyEvent) (s : Signal),
      (evs.foldl (fun acc e => mergeInto acc (buyParamsOf w m slp e) e.time) s).amount
        = s.amount + (evs.map BuyEvent.amount).sum := by
  intro evs
  induction evs with
  | nil => intro s; simp
  | cons e rest ih =>
    intro s
    simp only [List.foldl_cons, List.map_cons, List.sum_cons]
    rw [ih]
    simp only [mergeInto, buyParamsOf]
    ring

theorem foldMerge_occurrences (w m : String) (slp : ℚ) :
    ∀ (evs : List BuyEvent) (s : Signal) (k : ℕ), s.occurrences = some k →
      (evs.foldl (fun acc e => mergeInto acc (buyParamsOf w m slp e) e.time) s).occurrences
        = some (k + evs.length) := by
  intro evs
  induction evs with
  | nil => intro s k h; simpa using h
  | cons e rest ih =>
    intro s k h
    simp only [List.foldl_cons, List.length_cons]
    rw [ih (mergeInto s (buyParamsOf w m slp e) e.time) (k + 1)
      (by simp [mergeInto, h])]
    congr 1
    omega

theorem foldMerge_entry_none (w m : String) (slp : ℚ) :
    ∀ (evs : List BuyEvent) (s : Signal), s.entryPriceUsd = none →
      (∀ e ∈ evs, e.priceUsd = none) →
      (evs.foldl (fun acc e => mergeInto acc (buyParamsOf w m slp e) e.time) s).entryPriceUsd
        = none := by
  intro evs
  induction evs with
  | nil => intro s h _; simpa using h
  | cons e rest ih =>
    intro s h hall
    simp only [List.foldl_cons]
    apply ih
    · simp [mergeInto, buyParamsOf, mergeVWAP, jsFalsyQ, h, hall e (by simp)]
    · intro e' he'; exact hall e' (by simp [he'])

theorem foldMerge_entry_vwap (w m : String) (slp : ℚ) :
    ∀ (evs : List BuyEvent) (s : Signal) (S A : ℚ), 0 < S → 0 < A →
      (∀ e ∈ evs, 0 < e.amount ∧ ∃ pp, e.priceUsd = some pp ∧ 0 < pp) →
      s.amount = A → s.entryPriceUsd = some (S / A) →
      (evs.foldl (fun acc e => mergeInto acc (buyParamsOf w m slp e) e.time) s).entryPriceUsd
        = some ((S + (evs.map (fun e => e.priceUsd.getD 0 * e.amount)).sum)
            / (A + (evs.map BuyEvent.amount).sum)) := by
  intro evs
  induction evs with
  | nil => intro s S A _ _ _ _ hentry; simpa using hentry
  | cons e rest ih =>
    intro s S A hS hA hall hamount hentry
    obtain ⟨hea, pp, hep, hppos⟩ := hall e (by simp)
    have hSA : (0 : ℚ) < S / A := div_pos hS hA
    have hfq : jsFalsyQ (some (S / A)) = false := by
      simp [jsFalsyQ, div_eq_zero_iff]
      exact ⟨ne_of_gt hS, ne_of_gt hA⟩
    have hfp : jsFalsyQ (some pp) = false := by
      simp [jsFalsyQ]
      exact ne_of_gt hppos
    have htot : ¬ (A + e.amount ≤ 0) := by
      push_neg
      exact add_pos hA hea
    have hmerge : (mergeInto s (buyParamsOf w m slp e) e.time).entryPriceUsd
        = some ((S + pp * e.amount) / (A + e.amount)) := by
      simp only [mergeInto, buyParamsOf, hamount, hentry, hep]
      simp only [mergeVWAP, hfq, hfp, Bool.false_and, Bool.and_false,
        Bool.false_eq_true, if_false, htot, Option.getD_some]
      rw [div_mul_cancel₀ S (ne_of_gt hA)]
    simp only [List.foldl_cons]
    rw [ih (mergeInto s (buyParamsOf w m slp e) e.time) (S + pp * e.amount)
      (A + e.amount) (add_pos hS (mul_pos hppos hea)) (add_pos hA hea)
      (fun e' he' => hall e' (by simp [he']))
      (by simp [mergeInto, buyParamsOf, hamount]) hmerge]
    simp only [List.map_cons, List.sum_cons, hep, Option.getD_some]
    congr 1
    ring

/-- C2 (corrected): for a sequence of buy events for one (wallet, mint)
arriving inside the merge window, the resulting single Signal has `amount` =
sum of the event amounts and `occurrences` = number of events; when *every*
event carries a positive price, `entryPriceUsd` is the volume-weighted
average of all events, and when no event carries a price it stays undefined.
(The original claim's "VWAP of the priced events only" fails when an unpriced
event precedes a priced one — see the counterexample — because the carried
price is re-weighted by the full accumulated amount, unpriced events
included.) -/
theorem merge_correctness_amended (w m : String) (slp : ℚ) (e0 : BuyEvent)
    (evs : List BuyEvent)
    (hpos : ∀ e ∈ e0 :: evs, 0 < e.amount)
    (hchain : List.Chain' (fun a b => b - a ≤ MERGE_WINDOW_MS)
      ((e0 :: evs).map BuyEvent.time)) :
    ∃ s : Signal, applyBuys w m slp [] (e0 :: evs) = [s]
      ∧ s.amount = ((e0 :: evs).map BuyEvent.amount).sum
      ∧ s.occurrences = some (e0 :: evs).length
      ∧ ((∀ e ∈ e0 :: evs, ∃ pp, e.priceUsd = some pp ∧ 0 < pp) →
          s.entryPriceUsd
            = some ((((e0 :: evs).map (fun e => e.priceUsd.getD 0 * e.amount)).sum)
                / (((e0 :: evs).map BuyEvent.amount).sum)))
      ∧ ((∀ e ∈ e0 :: evs, e.priceUsd = none) → s.entryPriceUsd = none) := by
  have h0 : applyBuys w m slp [] (e0 :: evs)
      = applyBuys w m slp [newSignal (buyParamsOf w m slp e0) e0.time] evs := by
    simp only [applyBuys, List.foldl_cons]
    rfl
  have hlast : lastTs (newSignal (buyParamsOf w m slp e0) e0.time) = e0.time := rfl
  have hsingle := applyBuys_singleton w m slp evs
    (newSignal (buyParamsOf w m slp e0) e0.time) rfl rfl rfl
    (by rw [hlast]; simpa [List.map_cons] using hchain)
  refine ⟨_, h0.trans hsingle, ?_, ?_, ?_, ?_⟩
  · rw [foldMerge_amount]
    simp [newSignal, buyParamsOf]
  · rw [foldMerge_occurrences w m slp evs _ 1 (by simp [newSignal])]
    simp [Nat.add_comm]
  · intro hall
    obtain ⟨p0, hp0, hp0pos⟩ := hall e0 (by simp)
    have ha0 : 0 < e0.amount := hpos e0 (by simp)
    have hentry : (newSignal (buyParamsOf w m slp e0) e0.time).entryPriceUsd
        = some ((p0 * e0.amount) / e0.amount) := by
      simp only [newSignal, buyParamsOf, hp0]
      rw [mul_div_cancel_right₀ p0 (ne_of_gt ha0)]
    rw [foldMerge_entry_vwap w m slp evs _ (p0 * e0.amount) e0.amount
      (mul_pos hp0pos ha0) ha0
      (fun e' he' => ⟨hpos e' (by simp [he']), hall e' (by simp [he'])⟩)
      (by simp [newSignal, buyParamsOf]) hentry]
    simp only [List.map_cons, List.sum_cons, hp0, Option.getD_some]
  · intro hall
    exact foldMerge_entry_none w m slp evs _
      (by simp [newSignal, buyParamsOf, hall e0 (by simp)])
      (fun e' he' => hall e' (by simp [he']))

/-- Witness for C2's amended theorem at the spec's own scenario: 100 units at
price 1.00 followed 10 s later by 50 units at price 1.20. -/
theorem merge_correctness_amended_witness :
    ∃ s : Signal,
      applyBuys "w" "m" (-1/2) []
        [⟨100, some 1, 0⟩, ⟨50, some (6/5), 10000⟩] = [s]
      ∧ s.amount = (([⟨100, some 1, 0⟩, ⟨50, some (6/5), 10000⟩] :
          List BuyEvent).map BuyEvent.amount).sum
      ∧ s.occurrences = some ([⟨100, some 1, 0⟩, ⟨50, some (6/5), 10000⟩] :
          List BuyEvent).length
      ∧ ((∀ e ∈ ([⟨100, some 1, 0⟩, ⟨50, some (6/5), 10000⟩] : List BuyEvent),
            ∃ pp, e.priceUsd = some pp ∧ 0 < pp) →
          s.entryPriceUsd
            = some (((([⟨100, some 1, 0⟩, ⟨50, some (6/5), 10000⟩] :
                List BuyEvent).map (fun e => e.priceUsd.getD 0 * e.amount)).sum)
                / ((([⟨100, some 1, 0⟩, ⟨50, some (6/5), 10000⟩] :
                List BuyEvent).map BuyEvent.amount).sum)))
      ∧ ((∀ e ∈ ([⟨100, some 1, 0⟩, ⟨50, some (6/5), 10000⟩] : List BuyEvent),
            e.priceUsd = none) → s.entryPriceUsd = none) :=
  merge_correctness_amended "w" "m" (-1/2) ⟨100, some 1, 0⟩
    [⟨50, some (6/5), 10000⟩] (by decide)
    (by simp [List.chain'_cons, MERGE_WINDOW_MS])

/-- C2 counterexample: events (100 @ $1), (50 unpriced), (50 @ $2) all inside
the merge window produce `entryPriceUsd = 5/4` — the unpriced 50 units were
weighted into the carried price — whereas the VWAP of the priced events only
is `(1·100 + 2·50)/(100 + 50) = 4/3`. -/
theorem merge_vwap_counterexample :
    (applyBuys "w" "m" (-1/2) []
        [⟨100, some 1, 0⟩, ⟨50, none, 10000⟩, ⟨50, some 2, 20000⟩]).map
      (fun s => (s.amount, s.occurrences, s.entryPriceUsd))
      = [(200, some 3, some (5/4))]
    ∧ ((5 : ℚ)/4) ≠ (1 * 100 + 2 * 50) / (100 + 50) := by
  constructor
  · have h0 : applyBuys "w" "m" (-1/2) []
        [⟨100, some 1, 0⟩, ⟨50, none, 10000⟩, ⟨50, some 2, 20000⟩]
        = applyBuys "w" "m" (-1/2)
            [newSignal (buyParamsOf "w" "m" (-1/2) ⟨100, some 1, 0⟩) 0]
            [⟨50, none, 10000⟩, ⟨50, some 2, 20000⟩] := by
      simp only [applyBuys, List.foldl_cons]
      rfl
    have hs := applyBuys_singleton "w" "m" (-1/2)
      [⟨50, none, 10000⟩, ⟨50, some 2, 20000⟩]
      (newSignal (buyParamsOf "w" "m" (-1/2) ⟨100, some 1, 0⟩) 0)
      rfl rfl rfl
      (by norm_num [List.chain'_cons, MERGE_WINDOW_MS, lastTs, newSignal, buyParamsOf])
    rw [h0, hs]
    simp only [List.foldl_cons, List.foldl_nil, List.map_cons, List.map_nil]
    norm_num [mergeInto, mergeVWAP, newSignal, buyParamsOf, jsFalsyQ, jsFalsyStr]
  · norm_num

/-! ### Claim C4 -/

theorem cycleFn_closed (tp : Option ℚ) (priceOf : String → Option ℚ) (now : ℕ)
    (e v : Signal) (hv : v.status = .closed) :
    cycleFn tp priceOf now e v = v := by
  unfold cycleFn
  rcases priceOf e.mint with _ | current
  · rfl
  · by_cases hc : current ≤ 0
    · simp [hc]
    · simp only [hc, if_false]
      split
      · exact closeSignalIfMatch_of_not_match (isOpenMatch_of_closed hv)
      · rcases tp with _ | t
        · rfl
        · simp only
          split
          · exact closeSignalIfMatch_of_not_match (isOpenMatch_of_closed hv)
          · rfl

theorem cycleFn_ne_key (tp : Option ℚ) (priceOf : String → Option ℚ) (now : ℕ)
    (e v : Signal) (hne : ¬(v.wallet = e.wallet ∧ v.mint = e.mint)) :
    cycleFn tp priceOf now e v = v := by
  have hmatch : isOpenMatch e.wallet e.mint v = false := by
    simp only [isOpenMatch, decide_eq_false_iff_not]
    intro ⟨_, h2, h3⟩
    exact hne ⟨h2, h3⟩
  unfold cycleFn
  rcases priceOf e.mint with _ | current
  · rfl
  · by_cases hc : current ≤ 0
    · simp [hc]
    · simp only [hc, if_false]
      split
      · exact closeSignalIfMatch_of_not_match hmatch
      · rcases tp with _ | t
        · rfl
        · simp only
          split
          · exact closeSignalIfMatch_of_not_match hmatch
          · rfl

theorem fold_cycleFn_closed (tp : Option ℚ) (priceOf : String → Option ℚ) (now : ℕ) :
    ∀ (l : List Signal) (v : Signal), v.status = .closed →
      l.foldl (fun v e => cycleFn tp priceOf now e v) v = v := by
  intro l
  induction l with
  | nil => intro v _; rfl
  | cons e rest ih =>
    intro v hv
    simp only [List.foldl_cons, cycleFn_closed tp priceOf now e v hv]
    exact ih v hv

theorem foldMap_get (F : Signal → Signal → Signal) :
    ∀ (l : List Signal) (st : List Signal) (i : ℕ) (hi : i < st.length),
      ∃ h' : i < (l.foldl (fun st e => st.map (F e)) st).length,
        (l.foldl (fun st e => st.map (F e)) st).get ⟨i, h'⟩
          = l.foldl (fun v e => F e v) (st.get ⟨i, hi⟩) := by
  intro l
  induction l with
  | nil => intro st i hi; exact ⟨hi, rfl⟩
  | cons e rest ih =>
    intro st i hi
    simp only [List.foldl_cons]
    have hmi : i < (st.map (F e)).length := by simpa using hi
    obtain ⟨h', hh⟩ := ih (st.map (F e)) i hmi
    refine ⟨h', ?_⟩
    rw [hh]
    congr 1
    rw [List.get_eq_getElem, List.get_eq_getElem]
    simp [List.getElem_map]

theorem filter_comm_singleton (p q : Signal → Bool) :
    ∀ (l : List Signal) (s : Signal), l.filter q = [s] → p s = true →
      (l.filter p).filter q = [s] := by
  intro l
  induction l with
  | nil => intro s h; simp at h
  | cons x rest ih =>
    intro s hq hp
    by_cases hqx : q x = true
    · rw [List.filter_cons_of_pos hqx] at hq
      have hx : x = s := by
        have := List.head_eq_of_cons_eq hq
        exact this
      have hrest : rest.filter q = [] := List.tail_eq_of_cons_eq hq
      have hqrest : (rest.filter p).filter q = [] := by
        apply List.filter_eq_nil_iff.mpr
        intro t ht
        have ht' : t ∈ rest := List.mem_of_mem_filter ht
        have := List.filter_eq_nil_iff.mp hrest t ht'
        simpa using this
      subst hx
      rw [List.filter_cons_of_pos hp, List.filter_cons_of_pos hqx, hqrest]
    · have hqx' : q x = false := by simpa using hqx
      rw [List.filter_cons_of_neg (by simp [hqx'])] at hq
      have := ih s hq hp
      by_cases hpx : p x = true
      · rw [List.filter_cons_of_pos hpx, List.filter_cons_of_neg (by simp [hqx'])]
        exact this
      · rw [List.filter_cons_of_neg (by simpa using hpx)]
        exact this

theorem filter_singleton_of_length_one {l : List Signal} {pr : Signal → Bool}
    {s : Signal} (hlen : (l.filter pr).length = 1) (hs : s ∈ l)
    (hps : pr s = true) : l.filter pr = [s] := by
  have hmem : s ∈ l.filter pr := List.mem_filter.mpr ⟨hs, hps⟩
  rcases hfil : l.filter pr with _ | ⟨a, rest⟩
  · rw [hfil] at hmem; simp at hmem
  · rw [hfil] at hlen hmem
    have : rest = [] := by
      simpa using hlen
    subst this
    simp at hmem
    rw [hmem]

theorem cycle_value_stop_loss (tp : ℚ) (priceOf : String → Option ℚ) (now : ℕ)
    (s : Signal) (c e : ℚ)
    (hopen : s.status = .opened)
    (hentry : s.entryPriceUsd = some e) (hepos : 0 < e)
    (hprice : priceOf s.mint = some c) (hcpos : 0 < c)
    (hsl : (c - e) / e ≤ s.stopLossPct) :
    ∀ l : List Signal,
      (∀ x ∈ l, openWithEntry x = true) →
      l.filter (isOpenMatch s.wallet s.mint) = [s] →
      l.foldl (fun v x => cycleFn (some tp) priceOf now x v) s
        = { s with
            status := .closed, closedTs := some now,
            closeReason := some "stop_loss", exitPriceUsd := some c,
            exitPnlPct := some ((c - e) / e) } := by
  intro l
  induction l with
  | nil => intro _ h; simp at h
  | cons x rest ih =>
    intro hall hfil
    by_cases hx : isOpenMatch s.wallet s.mint x = true
    · rw [List.filter_cons_of_pos hx] at hfil
      have hxs : x = s := List.head_eq_of_cons_eq hfil
      have hrest : rest.filter (isOpenMatch s.wallet s.mint) = [] :=
        List.tail_eq_of_cons_eq hfil
      have hstep : cycleFn (some tp) priceOf now x s
          = { s with
              status := .closed, closedTs := some now,
              closeReason := some "stop_loss", exitPriceUsd := some c,
              exitPnlPct := some ((c - e) / e) } := by
        rw [hxs]
        unfold cycleFn
        rw [hprice]
        simp only [not_le.mpr hcpos, if_false]
        rw [hentry]
        simp only [Option.getD_some, hsl, if_pos]
        simp only [closeSignalIfMatch, isOpenMatch_iff.mpr ⟨hopen, rfl, rfl⟩,
          if_pos, hentry, hepos, if_true]
      simp only [List.foldl_cons, hstep]
      exact fold_cycleFn_closed (some tp) priceOf now rest _ rfl
    · have hx' : isOpenMatch s.wallet s.mint x = false := by simpa using hx
      rw [List.filter_cons_of_neg (by simp [hx'])] at hfil
      have hxopen : openWithEntry x = true := hall x (by simp)
      have hxstatus : x.status = .opened := by
        simp only [openWithEntry, Bool.and_eq_true, beq_iff_eq] at hxopen
        exact hxopen.1
      have hkey : ¬(s.wallet = x.wallet ∧ s.mint = x.mint) := by
        intro ⟨h1, h2⟩
        rw [isOpenMatch_iff.not] at hx
        exact hx ⟨hxstatus, h1.symm, h2.symm⟩
      simp only [List.foldl_cons,
        cycleFn_ne_key (some tp) priceOf now x s hkey]
      exact ih (fun y hy => hall y (by simp [hy])) hfil

/-- C4: in a Price Monitor cycle, an open Signal (the unique open one for its
wallet and mint, per the store invariant) whose PnL breaches both the
stop-loss and the take-profit thresholds is closed with reason "stop_loss"
and exit price equal to the current price; take-profit is not evaluated for
it — it is never closed with reason "take_profit". -/
theorem stop_loss_priority (store : List Signal) (tp : ℚ)
    (priceOf : String → Option ℚ) (now : ℕ) (i : ℕ) (hi : i < store.length)
    (c e : ℚ)
    (hopen : (store.get ⟨i, hi⟩).status = .opened)
    (hentry : (store.get ⟨i, hi⟩).entryPriceUsd = some e) (hepos : 0 < e)
    (hprice : priceOf (store.get ⟨i, hi⟩).mint = some c) (hcpos : 0 < c)
    (hsl : (c - e) / e ≤ (store.get ⟨i, hi⟩).stopLossPct)
    (htp : tp ≤ (c - e) / e)
    (huniq : openCountFor store (store.get ⟨i, hi⟩).wallet
      (store.get ⟨i, hi⟩).mint = 1) :
    ∃ h' : i < (priceCheckCycle store (some tp) priceOf now).length,
      (priceCheckCycle store (some tp) priceOf now).get ⟨i, h'⟩
        = { store.get ⟨i, hi⟩ with
            status := .closed, closedTs := some now,
            closeReason := some "stop_loss", exitPriceUsd := some c,
            exitPnlPct := some ((c - e) / e) } := by
  have hwe : openWithEntry (store.get ⟨i, hi⟩) = true := by
    unfold openWithEntry
    rw [hopen, hentry]
    simp [hepos]
  have hfil1 : store.filter (isOpenMatch (store.get ⟨i, hi⟩).wallet
      (store.get ⟨i, hi⟩).mint) = [store.get ⟨i, hi⟩] :=
    filter_singleton_of_length_one huniq (store.get_mem i hi)
      (isOpenMatch_iff.mpr ⟨hopen, rfl, rfl⟩)
  have hfil2 : (store.filter openWithEntry).filter
      (isOpenMatch (store.get ⟨i, hi⟩).wallet (store.get ⟨i, hi⟩).mint)
      = [store.get ⟨i, hi⟩] :=
    filter_comm_singleton openWithEntry _ store _ hfil1 hwe
  obtain ⟨h', hh⟩ := foldMap_get (cycleFn (some tp) priceOf now)
    (store.filter openWithEntry) store i hi
  refine ⟨h', ?_⟩
  have hgoal : (priceCheckCycle store (some tp) priceOf now).get ⟨i, h'⟩
      = (store.filter openWithEntry).foldl
          (fun v e => cycleFn (some tp) priceOf now e v) (store.get ⟨i, hi⟩) := hh
  rw [hgoal]
  exact cycle_value_stop_loss tp priceOf now (store.get ⟨i, hi⟩) c e hopen
    hentry hepos hprice hcpos hsl (store.filter openWithEntry)
    (fun x hx => List.of_mem_filter hx) hfil2

/-- Witness for C4 at the spec's own scenario: entry $1, stop-loss −50%,
current price $0.40 (PnL −60%), take-profit set to −60% so both thresholds
are breached; the Signal closes as a stop-loss at $0.40. -/
theorem stop_loss_priority_witness :
    ∃ h' : 0 < (priceCheckCycle [{ demoOpen with entryPriceUsd := some 1 }]
        (some (-3/5)) (fun _ => some (2/5)) 123).length,
      (priceCheckCycle [{ demoOpen with entryPriceUsd := some 1 }]
          (some (-3/5)) (fun _ => some (2/5)) 123).get ⟨0, h'⟩
        = { demoOpen with
            entryPriceUsd := some 1, status := .closed,
            closedTs := some 123, closeReason := some "stop_loss",
            exitPriceUsd := some (2/5), exitPnlPct := some ((2/5 - 1) / 1) } := by
  have h := stop_loss_priority [{ demoOpen with entryPriceUsd := some 1 }]
    (-3/5) (fun _ => some (2/5)) 123 0 (by simp) (2/5) 1
    rfl rfl one_pos
    rfl (by norm_num) (by norm_num [demoOpen]) (by norm_num) (by decide)
  exact h

/-- Witness for C9 on a one-element store holding a closed Signal. -/
theorem closed_signal_frozen_witness :
    ∃ h' : 0 < ((upsertBuy [demoClosed] demoParams 5).1).length,
      ((upsertBuy [demoClosed] demoParams 5).1).get ⟨0, h'⟩
        = [demoClosed].get ⟨0, by simp⟩ :=
  (closed_signal_frozen [demoClosed] 0 (by simp)
    (by simp [demoClosed, demoOpen])).1 demoParams 5

end Watchr
